import Mathlib

set_option maxHeartbeats 1000000

/-!
Shallow embedding of the mnemo NLP analysis pipeline
(src/nlp_service: preprocessor, fusion_service, history_service,
postprocessor, heuristic_parser, analyzer, cache_service).

Text is modelled as a list of Unicode codepoints; Python floats are
modelled as exact rationals; SQL rows and in-memory dictionaries are
modelled as lists and finite maps.
-/

namespace NlpService

/-- Strings are lists of Unicode codepoints. -/
abbrev Str : Type := List Nat

/-- Builds a codepoint string from a Lean string literal. -/
def strOf (s : String) : Str := s.data.map Char.toNat

/-- Lowercasing of a codepoint, covering ASCII and the Cyrillic block used by
the keyword tables (А-Я is 1040-1071, Ё is 1025); everything else is fixed.
This models str.lower restricted to the alphabet the service works with. -/
def toLowerCp (c : Nat) : Nat :=
  if 65 ≤ c ∧ c ≤ 90 then c + 32
  else if 1040 ≤ c ∧ c ≤ 1071 then c + 32
  else if c = 1025 then 1105
  else c

/-- Uppercasing of a codepoint, inverse ranges of toLowerCp. -/
def toUpperCp (c : Nat) : Nat :=
  if 97 ≤ c ∧ c ≤ 122 then c - 32
  else if 1072 ≤ c ∧ c ≤ 1103 then c - 32
  else if c = 1105 then 1025
  else c

/-- Whitespace characters recognised by the regexes (space, tab, LF, VT, FF, CR). -/
def isSpaceCp (c : Nat) : Bool :=
  c == 32 || c == 9 || c == 10 || c == 11 || c == 12 || c == 13

/-- Word characters for the regex class of word constituents: ASCII digits,
Latin letters, underscore, and the Cyrillic letters of the service's alphabet. -/
def isWordCp (c : Nat) : Bool :=
  (48 ≤ c && c ≤ 57) || (65 ≤ c && c ≤ 90) || (97 ≤ c && c ≤ 122) || c == 95 ||
  (1040 ≤ c && c ≤ 1103) || c == 1025 || c == 1105

/-- Lowercases a whole string (str.lower). -/
def lowerStr (s : Str) : Str := s.map toLowerCp

/-- Worker for collapseWs; the flag records whether the previous kept
character came from a whitespace run that already emitted its single space. -/
def collapseWsAux : Bool → Str → Str
  | _, [] => []
  | prevSpace, c :: rest =>
    if isSpaceCp c then
      if prevSpace then collapseWsAux true rest
      else 32 :: collapseWsAux true rest
    else c :: collapseWsAux false rest

/-- Collapses every maximal run of whitespace to a single space, modelling the
substitution of one-or-more whitespace by one space. -/
def collapseWs (s : Str) : Str := collapseWsAux false s

/-- Removes leading whitespace (left part of str.strip). -/
def ltrim (s : Str) : Str := s.dropWhile (fun c => isSpaceCp c)

/-- Removes trailing whitespace (right part of str.strip). -/
def rtrim (s : Str) : Str := (s.reverse.dropWhile (fun c => isSpaceCp c)).reverse

/-- Python str.strip. -/
def pyStrip (s : Str) : Str := rtrim (ltrim s)

/-- TextPreprocessor.normalize_text: lowercase, drop every character that is
neither a word character nor whitespace, collapse whitespace, strip. -/
def normalize_text (s : Str) : Str :=
  pyStrip (collapseWs (((s.map toLowerCp).filter (fun c => isWordCp c || isSpaceCp c))))

/-! Domain model (domain/models.py). -/

/-- ActionType: type of an action. -/
inductive ActionType
  | activity
  | achievement
deriving DecidableEq, Repr

/-- TimeSource: provenance of the duration estimate. -/
inductive TimeSource
  | text
  | history
  | model
  | default
deriving DecidableEq, Repr

/-- RawAction: intermediate record emitted by a parser. -/
structure RawAction where
  category : Str
  subcategory : Option Str
  action : Str
  type : ActionType
  estimated_time_minutes : Option Int
  confidence : ℚ
  achievement_weight : Option Int
  source : Str
deriving DecidableEq, Repr

/-- Action: finalized record produced by fusion. -/
structure Action where
  category : Str
  subcategory : Option Str
  action : Str
  type : ActionType
  estimated_time_minutes : Int
  time_source : TimeSource
  confidence : ℚ
  achievement_weight : Option Int
  points : ℚ
deriving DecidableEq, Repr

/-- Settings (config/settings.py), restricted to the fields the pipeline
logic reads, with their declared defaults. -/
structure Settings where
  heuristic_confidence_threshold : ℚ := 8/10
  default_time_minutes : Int := 10
  achievement_default_weight : Int := 10
deriving Repr

/-- Settings instance with all declared defaults. -/
def defaultSettings : Settings := {}

/-- Python truthiness-based fallback on an optional integer: both None and 0
are falsy, so they select the default. -/
def pyOrInt (x : Option Int) (d : Int) : Int :=
  match x with
  | none => d
  | some v => if v = 0 then d else v

/-! Fusion service (services/fusion_service.py). The history service behind
self.history_service is passed as a lookup function. -/

/-- FusionService._determine_time: priority text, history, model, default.
Clause 1 fires when a time is present in the raw action and confidence is at
least 0.7; clause 2 asks the history service for the normalized action text;
clause 3 reuses a present time at any confidence; clause 4 is the settings
default. -/
def determine_time (settings : Settings) (lookup : Int → Str → Option Int)
    (user_id : Int) (ra : RawAction) : Int × TimeSource :=
  match ra.estimated_time_minutes with
  | some e =>
    if ra.confidence ≥ 7/10 then (e, TimeSource.text)
    else
      match lookup user_id (normalize_text ra.action) with
      | some h => (h, TimeSource.history)
      | none => (e, TimeSource.model)
  | none =>
    match lookup user_id (normalize_text ra.action) with
    | some h => (h, TimeSource.history)
    | none => (settings.default_time_minutes, TimeSource.default)

/-- Duration-source cascade as the specification words it: first satisfied
clause of text, history, model, default wins. -/
def timeSourceSpec (settings : Settings) (lookup : Int → Str → Option Int)
    (user_id : Int) (ra : RawAction) : Int × TimeSource :=
  if ra.estimated_time_minutes.isSome ∧ ra.confidence ≥ 7/10 then
    (ra.estimated_time_minutes.getD settings.default_time_minutes, TimeSource.text)
  else if (lookup user_id (normalize_text ra.action)).isSome then
    ((lookup user_id (normalize_text ra.action)).getD settings.default_time_minutes,
      TimeSource.history)
  else if ra.estimated_time_minutes.isSome then
    (ra.estimated_time_minutes.getD settings.default_time_minutes, TimeSource.model)
  else
    (settings.default_time_minutes, TimeSource.default)

/-- FusionService._enrich_action: determine time and source, default the
achievement weight, compute points (achievement weight for achievements,
time divided by 10 for activities; the weight defaulting uses Python
truthiness, so a weight of 0 also selects the default for points). -/
def enrich_action (settings : Settings) (lookup : Int → Str → Option Int)
    (user_id : Int) (ra : RawAction) : Action :=
  let tm := determine_time settings lookup user_id ra
  let achievement_weight :=
    if ra.type = ActionType.achievement ∧ ra.achievement_weight = none then
      some settings.achievement_default_weight
    else ra.achievement_weight
  let points : ℚ :=
    if ra.type = ActionType.achievement then
      ((pyOrInt achievement_weight settings.achievement_default_weight : Int) : ℚ)
    else ((tm.1 : Int) : ℚ) / 10
  { category := ra.category
    subcategory := ra.subcategory
    action := ra.action
    type := ra.type
    estimated_time_minutes := tm.1
    time_source := tm.2
    confidence := ra.confidence
    achievement_weight := achievement_weight
    points := points }

/-- FusionService._merge_actions: prefer the LLM list when it is nonempty. -/
def fusion_merge_actions (heuristic_actions llm_actions : List RawAction) :
    List RawAction :=
  if llm_actions ≠ [] then llm_actions else heuristic_actions

/-- FusionService.fuse_results: merge the two parser outputs and enrich
every selected raw action. -/
def fuse_results (settings : Settings) (lookup : Int → Str → Option Int)
    (user_id : Int) (heuristic_actions llm_actions : List RawAction) : List Action :=
  (fusion_merge_actions heuristic_actions llm_actions).map
    (enrich_action settings lookup user_id)

/-- FusionService.should_use_llm. -/
def should_use_llm (settings : Settings) (heuristic_confidence : ℚ)
    (heuristic_action_count : Nat) : Bool :=
  if heuristic_action_count = 0 then true
  else if heuristic_confidence < settings.heuristic_confidence_threshold then true
  else false

/-! History service (services/history_service.py). -/

/-- Python int() applied to a float, modelled on rationals: truncation toward
zero (numerator divided by denominator with truncating division). -/
def pyIntOfRat (q : ℚ) : Int := q.num.tdiv (q.den : Int)

/-- Key of the in-memory store: user id and normalized text. -/
abbrev HistoryKey : Type := Int × Str

/-- InMemoryHistoryService.data, as a finite partial map from keys to the
stored pair of running average and occurrence count. -/
abbrev InMemoryData : Type := HistoryKey → Option (ℚ × Nat)

/-- Empty in-memory store. -/
def emptyHistory : InMemoryData := fun _ => none

/-- InMemoryHistoryService.get_average_time: normalize, look up the exact key,
fall back to the global key with user id 0, truncate the stored average. -/
def inmem_get_average_time (data : InMemoryData) (user_id : Int)
    (action_normalized : Str) : Option Int :=
  let normalized := normalize_text action_normalized
  match data (user_id, normalized) with
  | some p => some (pyIntOfRat p.1)
  | none =>
    match data ((0 : Int), normalized) with
    | some p => some (pyIntOfRat p.1)
    | none => none

/-- InMemoryHistoryService.record_action: normalize, then either update the
incremental mean at the key or create the entry with count 1. -/
def inmem_record_action (data : InMemoryData) (user_id : Int)
    (action_normalized : Str) (time_minutes : Int) : InMemoryData :=
  let normalized := normalize_text action_normalized
  let key : HistoryKey := (user_id, normalized)
  fun k =>
    if k = key then
      match data key with
      | some (avg_time, occurrences) =>
        some ((avg_time * occurrences + time_minutes) / (occurrences + 1),
          occurrences + 1)
      | none => some ((time_minutes : ℚ), 1)
    else data k

/-- Row of the action_templates table; the user_id column is nullable, and SQL
NULL is modelled as none. -/
structure TemplateRow where
  user_id : Option Int
  normalized_text : Str
  avg_time_minutes : ℚ
  occurrences : Nat
deriving DecidableEq, Repr

/-- Contents of the action_templates table. -/
abbrev SqliteDb : Type := List TemplateRow

/-- Comparison used to model the SQL clause ORDER BY user_id DESC NULLS LAST:
row b beats row a when its user id sorts strictly higher. -/
def betterRow (a b : TemplateRow) : Bool :=
  match a.user_id, b.user_id with
  | none, some _ => true
  | some x, some y => decide (x < y)
  | _, none => false

/-- Models ORDER BY user_id DESC NULLS LAST followed by LIMIT 1: keeps the
row whose user id sorts highest (ties keep the earlier row; on the reachable
tables the matching rows have pairwise distinct user ids, so ties between
distinct rows do not occur). -/
def selectTop : SqliteDb → Option TemplateRow
  | [] => none
  | r :: rest => some (rest.foldl (fun acc x => if betterRow acc x then x else acc) r)

/-- SQLiteHistoryService.get_average_time: the WHERE clause keeps rows whose
user_id equals the argument or is NULL, the ORDER BY prefers the non-NULL
user id, and the stored average of the first row is truncated to int. -/
def sqlite_get_average_time (db : SqliteDb) (user_id : Int)
    (action_normalized : Str) : Option Int :=
  let normalized := normalize_text action_normalized
  let matching := db.filter
    (fun r => decide ((r.user_id = some user_id ∨ r.user_id = none) ∧
      r.normalized_text = normalized))
  match selectTop matching with
  | some r => some (pyIntOfRat r.avg_time_minutes)
  | none => none

/-- SQLiteHistoryService.record_action: select the row with this exact user id
and normalized text; update it with the incremental mean when present,
otherwise insert a fresh row with occurrences 1. The insert always stores the
integer user id, never NULL. -/
def sqlite_record_action (db : SqliteDb) (user_id : Int)
    (action_normalized : Str) (time_minutes : Int) : SqliteDb :=
  let normalized := normalize_text action_normalized
  match db.find? (fun r => decide (r.user_id = some user_id ∧
      r.normalized_text = normalized)) with
  | some row =>
    let new_avg := (row.avg_time_minutes * row.occurrences + time_minutes) /
      (row.occurrences + 1)
    db.map (fun r =>
      if r.user_id = some user_id ∧ r.normalized_text = normalized then
        { r with avg_time_minutes := new_avg, occurrences := row.occurrences + 1 }
      else r)
  | none =>
    db ++ [{ user_id := some user_id, normalized_text := normalized,
             avg_time_minutes := (time_minutes : ℚ), occurrences := 1 }]

/-- Incremental-mean update shared by both record_action implementations:
either extend the running average or open the entry with count 1. -/
def mean_step (st : Option (ℚ × Nat)) (d : Int) : ℚ × Nat :=
  match st with
  | some (avg, n) => ((avg * n + d) / ((n : ℚ) + 1), n + 1)
  | none => ((d : ℚ), 1)

/-! Postprocessor (services/postprocessor.py). -/

/-- Worker for pyReplace with explicit fuel; the fuel starts at the length of
the subject string, which every step consumes at least one character of, so it
never runs out on the initial call. -/
def pyReplaceAux (old new : Str) : Nat → Str → Str
  | 0, s => s
  | _ + 1, [] => []
  | fuel + 1, c :: r =>
    if old ≠ [] ∧ old.isPrefixOf (c :: r) then
      new ++ pyReplaceAux old new fuel ((c :: r).drop old.length)
    else c :: pyReplaceAux old new fuel r

/-- Python str.replace: replaces every non-overlapping occurrence of old by
new, scanning left to right. -/
def pyReplace (old new s : Str) : Str := pyReplaceAux old new s.length s

/-- Python str.capitalize: first character uppercased, rest lowercased. -/
def pyCapitalize (s : Str) : Str :=
  match s with
  | [] => []
  | c :: r => toUpperCp c :: r.map toLowerCp

/-- Python substring containment (the in operator on strings). -/
def containsSub (needle : Str) : Str → Bool
  | [] => needle.isEmpty
  | c :: t => needle.isPrefixOf (c :: t) || containsSub needle t

/-- Synonym table of PostprocessorService._apply_synonyms, in source order. -/
def synonymsTable : List (Str × Str) :=
  [(strOf "зале", strOf "зал"), (strOf "спортзале", strOf "зал"),
   (strOf "качалке", strOf "зал"), (strOf "gym", strOf "зал"),
   (strOf "книжку", strOf "книгу"), (strOf "учебник", strOf "книгу")]

/-- PostprocessorService._apply_synonyms: the containment test runs against
the lowercased original text, computed once before the loop, while the
replacements are applied cumulatively; each hit replaces the synonym and its
capitalized form. -/
def apply_synonyms (text : Str) : Str :=
  let text_lower := lowerStr text
  synonymsTable.foldl
    (fun t p =>
      if containsSub p.1 text_lower then
        pyReplace (pyCapitalize p.1) (pyCapitalize p.2) (pyReplace p.1 p.2 t)
      else t)
    text

/-- PostprocessorService._normalize_actions: strip each action text and apply
the synonym table. -/
def normalize_actions (actions : List Action) : List Action :=
  actions.map (fun a => { a with action := apply_synonyms (pyStrip a.action) })

/-- Longest-common-subsequence length, the core of indel edit similarity. -/
def lcsLen : Str → Str → Nat
  | [], _ => 0
  | _, [] => 0
  | a :: xs, b :: ys =>
    if a = b then lcsLen xs ys + 1
    else max (lcsLen (a :: xs) ys) (lcsLen xs (b :: ys))
termination_by x y => x.length + y.length

/-- Modelled from the spec: normalized-Levenshtein similarity of §4.G, the
fuzz.ratio function of the external rapidfuzz library (not part of this
repository); ratio = 100·(1 − indel-distance/(len1+len2)) = 200·lcs/(len1+len2),
and two empty strings compare as 100. -/
def fuzzRatio (a b : Str) : ℚ :=
  if a.length + b.length = 0 then 100
  else 100 * (2 * (lcsLen a b : ℚ)) / ((a.length : ℚ) + (b.length : ℚ))

/-- PostprocessorService._are_similar: same category, same type, and text
similarity of the lowercased action texts at least the threshold. -/
def are_similar (threshold : ℚ) (action1 action2 : Action) : Bool :=
  if action1.category ≠ action2.category then false
  else if action1.type ≠ action2.type then false
  else decide (fuzzRatio (lowerStr action1.action) (lowerStr action2.action) / 100
    ≥ threshold)

/-- Time-source priority table of PostprocessorService._merge_actions. -/
def time_priority : TimeSource → Nat
  | TimeSource.text => 4
  | TimeSource.history => 3
  | TimeSource.model => 2
  | TimeSource.default => 1

/-- Python truthiness-based fallback on an optional string: None and the empty
string are falsy. -/
def pyOrStr (x y : Option Str) : Option Str :=
  match x with
  | none => y
  | some s => if s = [] then y else some s

/-- PostprocessorService._merge_actions: time fields from the operand with the
better time source, the other fields from the operand with the higher
confidence, confidence is the maximum. -/
def merge_actions (action1 action2 : Action) : Action :=
  let better_time_action :=
    if time_priority action1.time_source ≥ time_priority action2.time_source
    then action1 else action2
  let better_confidence_action :=
    if action1.confidence ≥ action2.confidence then action1 else action2
  { category := better_confidence_action.category
    subcategory := pyOrStr better_confidence_action.subcategory
      better_time_action.subcategory
    action := better_confidence_action.action
    type := better_confidence_action.type
    estimated_time_minutes := better_time_action.estimated_time_minutes
    time_source := better_time_action.time_source
    confidence := max action1.confidence action2.confidence
    achievement_weight := better_confidence_action.achievement_weight
    points := better_time_action.points }

/-- Worker of PostprocessorService._deduplicate_actions: each incoming action
is either merged in place into the first similar unique action or appended. -/
def dedup_go (threshold : ℚ) : List Action → List Action → List Action
  | unique, [] => unique
  | unique, a :: rest =>
    match unique.findIdx? (fun e => are_similar threshold a e) with
    | some i =>
      dedup_go threshold (unique.set i (merge_actions (unique.getD i a) a)) rest
    | none => dedup_go threshold (unique ++ [a]) rest

/-- PostprocessorService._deduplicate_actions. -/
def deduplicate_actions (threshold : ℚ) (actions : List Action) : List Action :=
  if actions.length ≤ 1 then actions else dedup_go threshold [] actions

/-- Absolute value on rationals, written out as the code's abs call. -/
def ratAbs (q : ℚ) : ℚ := if q < 0 then -q else q

/-- First validation pass: negative estimated time becomes 10. -/
def validate_est (a : Action) : Action :=
  if a.estimated_time_minutes < 0 then { a with estimated_time_minutes := 10 }
  else a

/-- Second validation pass: confidence clamped into the unit interval. -/
def validate_conf (a : Action) : Action :=
  if a.confidence < 0 then { a with confidence := 0 }
  else if a.confidence > 1 then { a with confidence := 1 }
  else a

/-- Canonical points of PostprocessorService._validate_actions: the
achievement branch applies Python truthiness to the weight with the literal
default 10, the activity branch divides the estimated time by 10. -/
def correct_points (a : Action) : ℚ :=
  if a.type = ActionType.achievement then
    ((pyOrInt a.achievement_weight 10 : Int) : ℚ)
  else ((a.estimated_time_minutes : Int) : ℚ) / 10

/-- Third validation pass: overwrite points when they deviate from the
canonical formula by more than 0.01. -/
def validate_points (a : Action) : Action :=
  if ratAbs (a.points - correct_points a) > 1/100 then
    { a with points := correct_points a }
  else a

/-- PostprocessorService._validate_actions applied to one action, in source
order: time, confidence, points. -/
def validate_action (a : Action) : Action :=
  validate_points (validate_conf (validate_est a))

/-- PostprocessorService._validate_actions. -/
def validate_actions (actions : List Action) : List Action :=
  actions.map validate_action

/-- PostprocessorService.process: empty in, empty out; otherwise normalize,
deduplicate, validate. -/
def process (threshold : ℚ) (actions : List Action) : List Action :=
  if actions = [] then []
  else validate_actions (deduplicate_actions threshold (normalize_actions actions))

/-- Raw achievement with weight 0, as the LLM parser can emit it: the response
schema admits any nonnegative achievement_weight and the parser forwards it
unvalidated. -/
def rawAchZero : RawAction :=
  { category := strOf "спорт", subcategory := none,
    action := strOf "пожал сотку", type := ActionType.achievement,
    estimated_time_minutes := some 5, confidence := 9/10,
    achievement_weight := some 0, source := strOf "llm" }

/-- Finalized activity whose action text shrinks under a second synonym pass:
the single-pass replacement turns залее into зале, which a further pass turns
into зал. -/
def aZalee : Action :=
  { category := strOf "спорт", subcategory := none,
    action := strOf "залее", type := ActionType.activity,
    estimated_time_minutes := 10, time_source := TimeSource.default,
    confidence := 8/10, achievement_weight := none, points := 1 }

/-- Finalized activity whose action text is fixed by stripping and by the
synonym table. -/
def aBeg : Action :=
  { category := strOf "спорт", subcategory := none,
    action := strOf "бег", type := ActionType.activity,
    estimated_time_minutes := 30, time_source := TimeSource.text,
    confidence := 9/10, achievement_weight := none, points := 3 }

/-! Analyzer (core/analyzer.py). -/

/-- Step 5 of TextAnalyzer.analyze_text: the actions projected into the
history store are exactly those whose estimated time is positive; the loop
applies no type filter. -/
def recorded_actions (final_actions : List Action) : List Action :=
  final_actions.filter (fun a => decide (a.estimated_time_minutes > 0))

/-- Projection as the specification lifecycle sentence words it: only
activities with positive estimated time. -/
def claimed_recorded_actions (final_actions : List Action) : List Action :=
  final_actions.filter (fun a =>
    decide (a.type = ActionType.activity ∧ a.estimated_time_minutes > 0))

/-- Raw heuristic achievement without an explicit duration, as the heuristic
parser emits for a record phrase. -/
def rawAchRecord : RawAction :=
  { category := strOf "спорт", subcategory := none,
    action := strOf "рекорд", type := ActionType.achievement,
    estimated_time_minutes := none, confidence := 8/10,
    achievement_weight := some 25, source := strOf "heuristic" }

/-- Final action list of a run whose only action is an achievement; fusion
gives it the default 10 minutes, so its estimated time is positive. -/
def recordDemoFinal : List Action :=
  process (85/100)
    (fuse_results defaultSettings (fun _ _ => none) 1 [rawAchRecord] [])

/-- AnalysisResult (domain/models.py), restricted to the fields the caching
logic reads and writes; dates are modelled as integers. -/
structure AnalysisResult where
  user_id : Int
  date : Int
  raw_text : Option Str
  actions : List Action
deriving DecidableEq, Repr

/-- RedisCacheService.generate_cache_key: the code concatenates the user id
and the text and applies SHA-256; the digest is a deterministic function of
exactly this pair, so the key is modelled as the pair itself. The date is not
part of the key. -/
def generate_cache_key (user_id : Int) (text : Str) : Int × Str :=
  (user_id, text)

/-- Cache contents: key to stored result. The JSON serialization roundtrip of
the code is modelled as the identity. -/
abbrev CacheMap : Type := (Int × Str) → Option AnalysisResult

/-- Empty cache. -/
def emptyCache : CacheMap := fun _ => none

/-- TextAnalyzer.analyze_text restricted to its caching behaviour: the key is
built from the user id and the normalized input text, a hit returns the
cached result unchanged, a miss runs the pipeline (passed as a parameter,
standing for preprocessing, parsing, fusion and postprocessing), assembles
the result with raw_text none and the supplied date, and stores it. -/
def analyze_text (pipeline : Int → Str → List Action) (cache_enabled : Bool)
    (cache : CacheMap) (user_id : Int) (text : Str) (analysis_date : Int) :
    AnalysisResult × CacheMap :=
  let key := generate_cache_key user_id (normalize_text text)
  match (if cache_enabled then cache key else none) with
  | some cached => (cached, cache)
  | none =>
    let final := pipeline user_id text
    let result : AnalysisResult :=
      { user_id := user_id, date := analysis_date, raw_text := none,
        actions := final }
    (result,
      if cache_enabled then (fun k => if k = key then some result else cache k)
      else cache)

/-! Heuristic parser (services/heuristic_parser.py). -/

/-- Decimal digit codepoint. -/
def isDigitCp (c : Nat) : Bool := 48 ≤ c && c ≤ 57

/-- Numeric value of a digit run. -/
def digitsToNat (ds : Str) : Nat := ds.foldl (fun acc d => acc * 10 + (d - 48)) 0

/-- Case-insensitive literal prefix test: lit is given lowercase and matches
that many leading characters of s up to lowercasing. -/
def ciPrefix (lit s : Str) : Bool := (s.take lit.length).map toLowerCp == lit

/-- One alternative of the duration-unit alternation: a stem followed by an
optional suffix group whose branches are tried in order, then the empty
branch. Returns the lowered matched text. -/
def tryUnitAlt (stem : Str) (opts : List Str) (s : Str) : Option Str :=
  if ciPrefix stem s then
    let rest := s.drop stem.length
    match opts.find? (fun o => ciPrefix o rest) with
    | some o => some (stem ++ o)
    | none => some stem
  else none

/-- Alternatives of the duration-unit pattern, in regex order: час with
optional а or ов, ч with optional dot, минут with optional а or ы, мин with
optional dot, секунд with optional а or ы, сек with optional dot. -/
def unitAlternatives : List (Str × List Str) :=
  [(strOf "час", [strOf "а", strOf "ов"]),
   (strOf "ч", [strOf "."]),
   (strOf "минут", [strOf "а", strOf "ы"]),
   (strOf "мин", [strOf "."]),
   (strOf "секунд", [strOf "а", strOf "ы"]),
   (strOf "сек", [strOf "."])]

/-- Matches the unit alternation at the start of s; the first alternative in
pattern order that matches wins. -/
def matchUnit (s : Str) : Option Str :=
  unitAlternatives.findSome? (fun p => tryUnitAlt p.1 p.2 s)

/-- Duration-pattern match starting exactly at the character c followed by
rest: one-or-more digits, optional whitespace, a unit. Returns the number of
characters consumed from rest beyond c, the numeric value, and the lowered
unit text. The digit run and the whitespace run are taken greedily; no
backtracking can succeed because the units start with letters. -/
def timeMatchAtCons (c : Nat) (rest : Str) : Option (Nat × Nat × Str) :=
  if isDigitCp c then
    let digitsTail := rest.takeWhile isDigitCp
    let rest1 := rest.drop digitsTail.length
    let sp := rest1.takeWhile isSpaceCp
    let rest2 := rest1.drop sp.length
    match matchUnit rest2 with
    | some unit =>
      some (digitsTail.length + sp.length + unit.length,
        digitsToNat (c :: digitsTail), unit)
    | none => none
  else none

/-- Leftmost duration match in a string: value and lowered unit. -/
def find_time_match : Str → Option (Nat × Str)
  | [] => none
  | c :: rest =>
    match timeMatchAtCons c rest with
    | some p => some (p.2.1, p.2.2)
    | none => find_time_match rest

/-- Unit conversion of HeuristicParser._extract_time: ч or hour means hours,
мин means minutes, сек means seconds floored to at least one minute. -/
def convert_time_unit (value : Nat) (unit : Str) : Option Int :=
  if containsSub (strOf "ч") unit || containsSub (strOf "hour") unit then
    some ((value : Int) * 60)
  else if containsSub (strOf "мин") unit then some (value : Int)
  else if containsSub (strOf "сек") unit then some ((max 1 (value / 60) : Nat) : Int)
  else none

/-- HeuristicParser._extract_time: first duration match, converted. -/
def extract_time (s : Str) : Option Int :=
  match find_time_match s with
  | some p => convert_time_unit p.1 p.2
  | none => none

/-- Worker for time_sub with explicit fuel, which always suffices because each
step consumes at least one character of the subject. -/
def timeSubAux (fuel : Nat) (s : Str) : Str :=
  match fuel, s with
  | _, [] => []
  | 0, s => s
  | fuel + 1, c :: rest =>
    match timeMatchAtCons c rest with
    | some p => timeSubAux fuel (rest.drop p.1)
    | none => c :: timeSubAux fuel rest

/-- Substitution of every duration match by the empty string. -/
def time_sub (s : Str) : Str := timeSubAux s.length s

/-- HeuristicParser._clean_action_text: remove duration expressions, collapse
whitespace, strip. -/
def clean_action_text (s : Str) : Str := pyStrip (collapseWs (time_sub s))

/-- Category keyword tables of HeuristicParser._build_category_keywords, in
source order: category, keywords, subcategories with their keywords. -/
def category_keywords : List (Str × List Str × List (Str × List Str)) :=
  [(strOf "спорт",
    [strOf "зал", strOf "тренир", strOf "спорт", strOf "бег", strOf "качал",
     strOf "пресс", strOf "отжим", strOf "подтяг", strOf "присед",
     strOf "кардио", strOf "йога", strOf "пилатес", strOf "бассейн",
     strOf "плав", strOf "велосипед", strOf "фитнес"],
    [(strOf "бодибилдинг",
      [strOf "качал", strOf "пожал", strOf "жим", strOf "присед",
       strOf "становая"]),
     (strOf "кардио",
      [strOf "бег", strOf "бежал", strOf "кардио", strOf "велосипед"]),
     (strOf "йога", [strOf "йога", strOf "медитац"])]),
   (strOf "учёба",
    [strOf "учи", strOf "читал", strOf "книг", strOf "курс", strOf "лекци",
     strOf "учёб", strOf "урок", strOf "задач", strOf "домашк",
     strOf "экзамен", strOf "конспект", strOf "изуча", strOf "разбир",
     strOf "математ", strOf "програм", strOf "учебник"],
    [(strOf "математика",
      [strOf "математ", strOf "алгебр", strOf "геометр", strOf "матан"]),
     (strOf "программирование",
      [strOf "програм", strOf "код", strOf "python", strOf "java",
       strOf "алгоритм"]),
     (strOf "языки",
      [strOf "английск", strOf "немецк", strOf "французск", strOf "язык"])]),
   (strOf "готовка",
    [strOf "готов", strOf "приготов", strOf "сварил", strOf "пожарил",
     strOf "испёк", strOf "кухн", strOf "рецепт", strOf "еда", strOf "обед",
     strOf "ужин", strOf "завтрак"],
    []),
   (strOf "работа",
    [strOf "работ", strOf "проект", strOf "задач", strOf "встреч",
     strOf "созвон", strOf "деплой", strOf "фича", strOf "баг",
     strOf "код ревью", strOf "митинг"],
    []),
   (strOf "творчество",
    [strOf "рисов", strOf "писал", strOf "музык", strOf "игра на",
     strOf "сочин", strOf "творч", strOf "художеств", strOf "стих",
     strOf "песн", strOf "картин"],
    [(strOf "музыка",
      [strOf "музык", strOf "гитар", strOf "пиани", strOf "играл на"]),
     (strOf "рисование",
      [strOf "рисов", strOf "нарисов", strOf "художеств", strOf "картин"])]),
   (strOf "саморазвитие",
    [strOf "медитиров", strOf "размышл", strOf "психолог", strOf "личностн",
     strOf "саморазв", strOf "цели", strOf "планиров", strOf "дневник"],
    []),
   (strOf "социальное",
    [strOf "встреч", strOf "друзья", strOf "семья", strOf "общен",
     strOf "позвон", strOf "гости", strOf "компан", strOf "тусовк",
     strOf "свидан"],
    []),
   (strOf "дом",
    [strOf "убир", strOf "уборк", strOf "помыл", strOf "постир",
     strOf "почист", strOf "порядок", strOf "быт"],
    [])]

/-- Subcategory selection: first subcategory with a contained keyword. -/
def find_subcategory (subs : List (Str × List Str)) (text_lower : Str) :
    Option Str :=
  match subs.find? (fun sc => sc.2.any (fun kw => containsSub kw text_lower)) with
  | some sc => some sc.1
  | none => none

/-- HeuristicParser._detect_category: first category in table order with a
contained keyword; its subcategory table is then scanned the same way. -/
def detect_category (text : Str) : Option Str × Option Str :=
  let text_lower := lowerStr text
  match category_keywords.find?
      (fun cat => cat.2.1.any (fun kw => containsSub kw text_lower)) with
  | some cat => (some cat.1, find_subcategory cat.2.2 text_lower)
  | none => (none, none)

/-- Achievement keyword table of HeuristicParser._build_achievement_keywords,
in source order. -/
def achievement_keywords : List (Str × Int) :=
  [(strOf "впервые", 20), (strOf "первый раз", 20), (strOf "рекорд", 25),
   (strOf "побил рекорд", 25), (strOf "личный рекорд", 25),
   (strOf "достижени", 15), (strOf "смог", 10), (strOf "получилось", 10),
   (strOf "наконец", 8), (strOf "завершил", 12), (strOf "окончил", 15),
   (strOf "сдал экзамен", 20), (strOf "защитил", 20)]

/-- HeuristicParser._detect_achievement: first contained keyword wins. -/
def detect_achievement (text : Str) : Bool × Option Int :=
  let text_lower := lowerStr text
  match achievement_keywords.find? (fun p => containsSub p.1 text_lower) with
  | some p => (true, some p.2)
  | none => (false, none)

/-- HeuristicParser._calculate_action_confidence: base 0.5, plus 0.2 for a
category, plus 0.2 for a duration, plus 0.1 for an achievement, capped at 1. -/
def calculate_action_confidence (category : Option Str)
    (time_minutes : Option Int) (is_achievement : Bool) : ℚ :=
  let confidence : ℚ := 1/2
  let confidence := if category.isSome then confidence + 2/10 else confidence
  let confidence := if time_minutes.isSome then confidence + 2/10 else confidence
  let confidence := if is_achievement then confidence + 1/10 else confidence
  min confidence 1

/-- HeuristicParser._extract_action_from_segment: no category means no
action; otherwise assemble the raw action with the detected fields. -/
def heuristic_extract_action (segment : Str) : Option RawAction :=
  match detect_category segment with
  | (none, _) => none
  | (some category, subcategory) =>
    let ach := detect_achievement segment
    let action_type :=
      if ach.1 then ActionType.achievement else ActionType.activity
    let time_minutes := extract_time segment
    let confidence :=
      calculate_action_confidence (some category) time_minutes ach.1
    let action_text := clean_action_text segment
    some { category := category, subcategory := subcategory,
           action := action_text, type := action_type,
           estimated_time_minutes := time_minutes, confidence := confidence,
           achievement_weight := ach.2, source := strOf "heuristic" }

/-- Connective tokens of the segmentation pattern, in alternation order. -/
def connectiveWords : List Str :=
  [strOf "и", strOf "а", strOf "также", strOf "потом"]

/-- Delimiter match starting exactly at the character c followed by rest:
either a comma or semicolon, or whitespace, a connective word and trailing
whitespace. Returns the number of characters consumed from rest beyond c. -/
def matchDelimAtCons (c : Nat) (rest : Str) : Option Nat :=
  if c = 44 ∨ c = 59 then some 0
  else if isSpaceCp c then
    let sp1 := rest.takeWhile isSpaceCp
    let rest1 := rest.drop sp1.length
    connectiveWords.findSome? (fun w =>
      if ciPrefix w rest1 then
        let rest2 := rest1.drop w.length
        let sp2 := rest2.takeWhile isSpaceCp
        if sp2 ≠ [] then some (sp1.length + w.length + sp2.length) else none
      else none)
  else none

/-- Worker for split_segments with explicit fuel that always suffices. -/
def splitSegmentsAux (fuel : Nat) (cur : Str) (s : Str) : List Str :=
  match fuel, s with
  | _, [] => [cur.reverse]
  | 0, s => [cur.reverse ++ s]
  | fuel + 1, c :: rest =>
    match matchDelimAtCons c rest with
    | some extra => cur.reverse :: splitSegmentsAux fuel [] (rest.drop extra)
    | none => splitSegmentsAux fuel (c :: cur) rest

/-- Regex split of the text at every delimiter occurrence. -/
def split_segments (s : Str) : List Str := splitSegmentsAux s.length [] s

/-- HeuristicParser._segment_text: split, strip, drop empties. -/
def segment_text (s : Str) : List Str :=
  ((split_segments s).map pyStrip).filter (fun x => !x.isEmpty)

/-- HeuristicParser._calculate_confidence: mean of the action confidences, 0
when there are none. -/
def heuristic_overall_confidence (actions : List RawAction) : ℚ :=
  if actions = [] then 0
  else (actions.map (fun a => a.confidence)).sum / (actions.length : ℚ)

/-- HeuristicParser.parse, without the wall-clock latency field: every
segment that yields an action contributes it, and the overall confidence is
the mean. -/
def heuristic_parse (text : Str) : List RawAction × ℚ :=
  let actions := (segment_text text).filterMap heuristic_extract_action
  (actions, heuristic_overall_confidence actions)

/-- Raw action the heuristic parser emits for the input зал 30 минут. -/
def heuristicDemoAction : RawAction :=
  { category := strOf "спорт", subcategory := none, action := strOf "зал",
    type := ActionType.activity, estimated_time_minutes := some 30,
    confidence := 9/10, achievement_weight := none,
    source := strOf "heuristic" }

/-! Idempotence of normalize_text. These theorems support the preprocessor
part of the specification; the full preprocess pipeline additionally involves
the external phone-number matcher and is not settled here. -/

/-- Adjacent characters are not both whitespace. -/
def NoSpaceRun (a b : Nat) : Prop := ¬(isSpaceCp a = true ∧ isSpaceCp b = true)

/-! Theorems. -/

/-- C1. For every raw action the selected duration and time source agree with
the first-satisfied clause of the four-way priority of the specification:
text when a time is present and confidence is at least 0.7 (the time is taken
from the action), else history when the lookup of the normalized action text
returns a value (that value is used), else model when a time is present at any
confidence, else the settings default. -/
theorem fusion_time_source_priority (settings : Settings)
    (lookup : Int → Str → Option Int) (user_id : Int) (ra : RawAction) :
    determine_time settings lookup user_id ra =
      timeSourceSpec settings lookup user_id ra := by
  unfold determine_time timeSourceSpec
  cases h : ra.estimated_time_minutes with
  | none =>
    cases hl : lookup user_id (normalize_text ra.action) <;>
      simp [h, hl]
  | some e =>
    by_cases hc : ra.confidence ≥ 7/10
    · simp [h, hc]
    · cases hl : lookup user_id (normalize_text ra.action) <;>
        simp [h, hl, hc]

/-- C4. should_use_llm returns true exactly when the heuristic pass found no
actions or its confidence is below the configured threshold, whose declared
default is 0.8. -/
theorem should_use_llm_iff :
    (∀ (settings : Settings) (c : ℚ) (n : Nat),
      should_use_llm settings c n = true ↔
        (n = 0 ∨ c < settings.heuristic_confidence_threshold))
    ∧ defaultSettings.heuristic_confidence_threshold = 8/10 := by
  constructor
  · intro settings c n
    unfold should_use_llm
    by_cases hn : n = 0
    · simp [hn]
    · by_cases hc : c < settings.heuristic_confidence_threshold <;> simp [hn, hc]
  · rfl

/-- C3. The two history implementations disagree on the global-template
fallback: after record_action(0, k, 30), the SQLite implementation returns
nothing for user 1 (its fallback clause matches only SQL NULL user ids, which
record_action never writes), while the in-memory implementation returns the
recorded 30 as the specification demands. -/
theorem history_global_fallback_code_bug :
    sqlite_get_average_time
        (sqlite_record_action ([] : SqliteDb) 0 (strOf "бег") 30) 1 (strOf "бег")
      = none
    ∧ inmem_get_average_time
        (inmem_record_action emptyHistory 0 (strOf "бег") 30) 1 (strOf "бег")
      = some 30 := by
  constructor
  · rfl
  · rfl

theorem inmem_record_at_key (m : InMemoryData) (u : Int) (k : Str) (d : Int) :
    inmem_record_action m u k d (u, normalize_text k) =
      some (mean_step (m (u, normalize_text k)) d) := by
  unfold inmem_record_action mean_step
  simp only [if_pos rfl]
  cases m (u, normalize_text k) with
  | none => rfl
  | some p => rfl

theorem inmem_fold_at_key (u : Int) (k : Str) :
    ∀ (ds : List Int) (m : InMemoryData),
      (ds.foldl (fun m d => inmem_record_action m u k d) m) (u, normalize_text k)
        = ds.foldl (fun st d => some (mean_step st d)) (m (u, normalize_text k)) := by
  intro ds
  induction ds with
  | nil => intro m; rfl
  | cons d t ih =>
    intro m
    simp only [List.foldl_cons]
    rw [ih, inmem_record_at_key]

theorem mean_arith (s d : Int) (n : Nat) (hn : 0 < n) :
    ((s : ℚ) / (n : ℚ) * (n : ℚ) + (d : ℚ)) / ((n : ℚ) + 1)
      = (((s + d : Int)) : ℚ) / (((n + 1 : Nat)) : ℚ) := by
  have hn0 : (n : ℚ) ≠ 0 := Nat.cast_ne_zero.mpr (by omega)
  rw [div_mul_cancel₀ _ hn0]
  push_cast
  ring

theorem mean_fold_some :
    ∀ (ds : List Int) (s : Int) (n : Nat), 0 < n →
      ds.foldl (fun st d => some (mean_step st d)) (some ((s : ℚ) / (n : ℚ), n))
        = some ((((s + ds.sum : Int)) : ℚ) / (((n + ds.length : Nat)) : ℚ),
            n + ds.length) := by
  intro ds
  induction ds with
  | nil => intro s n hn; simp
  | cons d t ih =>
    intro s n hn
    simp only [List.foldl_cons]
    have hred : mean_step (some ((s : ℚ) / (n : ℚ), n)) d
        = (((s : ℚ) / (n : ℚ) * (n : ℚ) + (d : ℚ)) / ((n : ℚ) + 1), n + 1) := rfl
    have hstep : mean_step (some ((s : ℚ) / (n : ℚ), n)) d
        = (((s + d : Int) : ℚ) / ((n + 1 : Nat) : ℚ), n + 1) := by
      rw [hred, mean_arith s d n hn]
    rw [hstep, ih (s + d) (n + 1) (by omega)]
    have h1 : s + d + t.sum = s + (d :: t).sum := by
      simp [List.sum_cons]; ring
    have h2 : n + 1 + t.length = n + (d :: t).length := by
      simp [List.length_cons]; omega
    rw [h1, h2]

theorem sqlite_record_on_single (u : Int) (k : Str) (a : ℚ) (n : Nat) (d : Int) :
    sqlite_record_action [⟨some u, normalize_text k, a, n⟩] u k d
      = [⟨some u, normalize_text k, (a * n + d) / ((n : ℚ) + 1), n + 1⟩] := by
  unfold sqlite_record_action
  simp [List.find?]

theorem sqlite_fold_single (u : Int) (k : Str) :
    ∀ (ds : List Int) (s : Int) (n : Nat), 0 < n →
      ds.foldl (fun db d => sqlite_record_action db u k d)
          [⟨some u, normalize_text k, (s : ℚ) / (n : ℚ), n⟩]
        = [⟨some u, normalize_text k,
            (((s + ds.sum : Int)) : ℚ) / (((n + ds.length : Nat)) : ℚ),
            n + ds.length⟩] := by
  intro ds
  induction ds with
  | nil => intro s n hn; simp
  | cons d t ih =>
    intro s n hn
    simp only [List.foldl_cons]
    rw [sqlite_record_on_single, mean_arith s d n hn, ih (s + d) (n + 1) (by omega)]
    have h1 : s + d + t.sum = s + (d :: t).sum := by
      simp [List.sum_cons]; ring
    have h2 : n + 1 + t.length = n + (d :: t).length := by
      simp [List.length_cons]; omega
    rw [h1, h2]

/-- C5. After any nonempty sequence of recorded durations for one key, both
history implementations store exactly the arithmetic mean of the durations and
an occurrence count equal to their number; the statement quantifies over the
whole sequence, so every further record_action preserves the invariant. -/
theorem history_running_mean_invariant (u : Int) (k : Str) (ds : List Int)
    (hne : ds ≠ []) :
    (ds.foldl (fun m d => inmem_record_action m u k d) emptyHistory)
        (u, normalize_text k)
      = some (((ds.sum : Int) : ℚ) / ((ds.length : Nat) : ℚ), ds.length)
    ∧ ds.foldl (fun db d => sqlite_record_action db u k d) ([] : SqliteDb)
      = [⟨some u, normalize_text k,
          ((ds.sum : Int) : ℚ) / ((ds.length : Nat) : ℚ), ds.length⟩] := by
  cases ds with
  | nil => exact absurd rfl hne
  | cons d t =>
    constructor
    · rw [inmem_fold_at_key]
      simp only [List.foldl_cons]
      have h0 : mean_step (emptyHistory (u, normalize_text k)) d = ((d : ℚ), 1) := rfl
      have h1 : ((d : ℚ), 1) = ((d : ℚ) / ((1 : Nat) : ℚ), 1) := by norm_num
      rw [h0, h1]
      have := mean_fold_some t d 1 (by omega)
      rw [this]
      have h2 : d + t.sum = (d :: t).sum := by simp [List.sum_cons]
      have h3 : 1 + t.length = (d :: t).length := by simp [List.length_cons]; omega
      rw [h2, h3]
    · simp only [List.foldl_cons]
      have h0 : sqlite_record_action ([] : SqliteDb) u k d
          = [⟨some u, normalize_text k, (d : ℚ), 1⟩] := rfl
      have h1 : ((d : Int) : ℚ) = ((d : Int) : ℚ) / ((1 : Nat) : ℚ) := by norm_num
      rw [h0]
      rw [show (⟨some u, normalize_text k, (d : ℚ), 1⟩ : TemplateRow)
          = ⟨some u, normalize_text k, (d : ℚ) / ((1 : Nat) : ℚ), 1⟩ by rw [← h1]]
      rw [sqlite_fold_single u k t d 1 (by omega)]
      have h2 : d + t.sum = (d :: t).sum := by simp [List.sum_cons]
      have h3 : 1 + t.length = (d :: t).length := by simp [List.length_cons]; omega
      rw [h2, h3]

/-- Witness for C5 at a concrete input: recording 30 then 60 stores the mean
45 with occurrence count 2. -/
theorem history_running_mean_invariant_witness :
    (([30, 60] : List Int) ≠ [])
    ∧ ((([30, 60] : List Int).foldl
          (fun m d => inmem_record_action m 1 (strOf "зал") d) emptyHistory)
          (1, normalize_text (strOf "зал"))
        = some (((([30, 60] : List Int).sum : Int) : ℚ) /
            (((([30, 60] : List Int).length : Nat)) : ℚ), ([30, 60] : List Int).length)
      ∧ ([30, 60] : List Int).foldl
          (fun db d => sqlite_record_action db 1 (strOf "зал") d) ([] : SqliteDb)
        = [⟨some 1, normalize_text (strOf "зал"),
            ((([30, 60] : List Int).sum : Int) : ℚ) /
              (((([30, 60] : List Int).length : Nat)) : ℚ),
            ([30, 60] : List Int).length⟩]) :=
  ⟨by decide, history_running_mean_invariant 1 (strOf "зал") [30, 60] (by decide)⟩

theorem correct_points_set_points (a : Action) (p : ℚ) :
    correct_points { a with points := p } = correct_points a := rfl

theorem validate_points_bound (b : Action) :
    ratAbs ((validate_action b).points - correct_points (validate_action b))
      ≤ 1/100 := by
  unfold validate_action
  set c := validate_conf (validate_est b) with hc
  by_cases h : ratAbs (c.points - correct_points c) > 1/100
  · simp only [validate_points, if_pos h, correct_points_set_points]
    simp [ratAbs]
  · simp only [validate_points, if_neg h]
    exact le_of_not_lt h

/-- C2 (amended). Every action emitted by the postprocessor has points within
0.01 of the canonical formula actually computed by the code: for achievements
the Python-truthy weight (the default 10 when the weight is missing or 0), for
activities the estimated time divided by 10. -/
theorem postprocess_points_within_tolerance (threshold : ℚ) (xs : List Action)
    (a : Action) (ha : a ∈ process threshold xs) :
    (a.type = ActionType.achievement →
      ratAbs (a.points - ((pyOrInt a.achievement_weight 10 : Int) : ℚ)) ≤ 1/100)
    ∧ (a.type = ActionType.activity →
      ratAbs (a.points - ((a.estimated_time_minutes : Int) : ℚ) / 10) ≤ 1/100) := by
  unfold process at ha
  split at ha
  · exact absurd ha (List.not_mem_nil a)
  · unfold validate_actions at ha
    rcases List.mem_map.mp ha with ⟨b, _, rfl⟩
    have hbd := validate_points_bound b
    constructor
    · intro htype
      unfold correct_points at hbd
      rw [if_pos htype] at hbd
      exact hbd
    · intro htype
      unfold correct_points at hbd
      rw [if_neg (by rw [htype]; simp)] at hbd
      exact hbd

unseal Rat.mul Rat.add Rat.sub Rat.inv in
/-- Witness for C2 at a concrete input: a well-formed activity passes through
the postprocessor with points 3 for 30 minutes. -/
theorem postprocess_points_within_tolerance_witness :
    aBeg ∈ process (85/100) [aBeg]
    ∧ ((aBeg.type = ActionType.achievement →
        ratAbs (aBeg.points - ((pyOrInt aBeg.achievement_weight 10 : Int) : ℚ))
          ≤ 1/100)
      ∧ (aBeg.type = ActionType.activity →
        ratAbs (aBeg.points - ((aBeg.estimated_time_minutes : Int) : ℚ) / 10)
          ≤ 1/100)) :=
  ⟨by decide, postprocess_points_within_tolerance (85/100) [aBeg] aBeg (by decide)⟩

unseal Rat.mul Rat.add Rat.sub Rat.inv in
/-- C2 counterexample. An achievement with weight 0, reachable through the
LLM path, comes out of fusion and postprocessing with achievement_weight 0
but points 10 (Python or treats 0 as missing), so points does not equal
achievement_weight within 0.01. -/
theorem points_equals_weight_counterexample :
    process (85/100)
        (fuse_results defaultSettings (fun _ _ => none) 1 [] [rawAchZero])
      = [{ category := strOf "спорт", subcategory := none,
           action := strOf "пожал сотку", type := ActionType.achievement,
           estimated_time_minutes := 5, time_source := TimeSource.text,
           confidence := 9/10, achievement_weight := some 0, points := 10 }]
    ∧ ¬ (ratAbs ((10 : ℚ) - ((0 : Int) : ℚ)) ≤ 1/100) := by
  constructor
  · decide
  · decide

theorem validate_action_action (a : Action) :
    (validate_action a).action = a.action := by
  unfold validate_action validate_points validate_conf validate_est
  split_ifs <;> rfl

theorem validate_points_est (a : Action) :
    (validate_points a).estimated_time_minutes = a.estimated_time_minutes := by
  unfold validate_points; split_ifs <;> rfl

theorem validate_conf_est (a : Action) :
    (validate_conf a).estimated_time_minutes = a.estimated_time_minutes := by
  unfold validate_conf; split_ifs <;> rfl

theorem validate_est_nonneg (a : Action) :
    ¬ (validate_est a).estimated_time_minutes < 0 := by
  unfold validate_est
  split_ifs with h
  · simp
  · exact h

theorem validate_points_conf (a : Action) :
    (validate_points a).confidence = a.confidence := by
  unfold validate_points; split_ifs <;> rfl

theorem validate_conf_bounds (a : Action) :
    ¬ (validate_conf a).confidence < 0 ∧ ¬ (validate_conf a).confidence > 1 := by
  unfold validate_conf
  split_ifs with h1 h2
  · constructor <;> norm_num
  · constructor <;> norm_num
  · constructor
    · exact h1
    · exact h2

theorem validate_action_idem (a : Action) :
    validate_action (validate_action a) = validate_action a := by
  have hest : validate_est (validate_action a) = validate_action a := by
    unfold validate_est
    rw [if_neg]
    show ¬ (validate_action a).estimated_time_minutes < 0
    have h1 : (validate_action a).estimated_time_minutes
        = (validate_est a).estimated_time_minutes := by
      unfold validate_action
      rw [validate_points_est, validate_conf_est]
    rw [h1]
    exact validate_est_nonneg a
  have hconf : validate_conf (validate_action a) = validate_action a := by
    have h1 : (validate_action a).confidence
        = (validate_conf (validate_est a)).confidence := by
      unfold validate_action
      rw [validate_points_conf]
    have h2 := validate_conf_bounds (validate_est a)
    unfold validate_conf
    rw [if_neg (by rw [h1]; exact h2.1), if_neg (by rw [h1]; exact h2.2)]
  have hpts : validate_points (validate_action a) = validate_action a := by
    unfold validate_points
    rw [if_neg (not_lt.mpr (validate_points_bound a))]
  calc validate_action (validate_action a)
      = validate_points (validate_conf (validate_est (validate_action a))) := rfl
    _ = validate_points (validate_conf (validate_action a)) := by rw [hest]
    _ = validate_points (validate_action a) := by rw [hconf]
    _ = validate_action a := hpts

unseal Rat.mul Rat.add Rat.sub Rat.inv in
/-- C8 counterexample. Running the postprocessor twice on a singleton changes
the output: the synonym pass maps залее to зале in the first run and зале to
зал in the second, so process is not idempotent. -/
theorem process_not_idempotent_counterexample :
    process (85/100) (process (85/100) [aZalee]) ≠ process (85/100) [aZalee] := by
  decide

/-- C8 (amended). The postprocessor is not idempotent in general because
synonym replacement is a single text pass; it is idempotent on a singleton
whose action text is already fixed by stripping and by the synonym table. -/
theorem process_idem_of_fixed_text (threshold : ℚ) (a : Action)
    (h1 : pyStrip a.action = a.action) (h2 : apply_synonyms a.action = a.action) :
    process threshold (process threshold [a]) = process threshold [a] := by
  have hnorm : ∀ b : Action, b.action = a.action → normalize_actions [b] = [b] := by
    intro b hb
    unfold normalize_actions
    show [{ b with action := apply_synonyms (pyStrip b.action) }] = [b]
    rw [hb, h1, h2, ← hb]
  have hsingle : ∀ b : Action, b.action = a.action →
      process threshold [b] = [validate_action b] := by
    intro b hb
    unfold process
    rw [if_neg (by simp), hnorm b hb]
    unfold deduplicate_actions
    rw [if_pos (by simp)]
    rfl
  rw [hsingle a rfl, hsingle (validate_action a) (validate_action_action a),
    validate_action_idem]

unseal Rat.mul Rat.add Rat.sub Rat.inv in
/-- Witness for C8 at a concrete input: бег is fixed by strip and synonyms and
a second postprocessor run is a no-op on it. -/
theorem process_idem_of_fixed_text_witness :
    pyStrip aBeg.action = aBeg.action
    ∧ apply_synonyms aBeg.action = aBeg.action
    ∧ process (85/100) (process (85/100) [aBeg]) = process (85/100) [aBeg] :=
  ⟨by decide, by decide,
    process_idem_of_fixed_text (85/100) aBeg (by decide) (by decide)⟩

unseal Rat.mul Rat.add Rat.sub Rat.inv in
/-- C6 counterexample. An achievement that reaches the final list with the
default positive duration is recorded into the history store, while the claim
says achievements are never recorded: the code's selection differs from the
claimed one on this run. -/
theorem recorded_actions_counterexample :
    recorded_actions recordDemoFinal ≠ claimed_recorded_actions recordDemoFinal
    ∧ recordDemoFinal.map (fun a => (a.type, a.estimated_time_minutes))
        = [(ActionType.achievement, 10)]
    ∧ recorded_actions recordDemoFinal = recordDemoFinal := by
  refine ⟨by decide, by decide, by decide⟩

/-- C6 (amended). The analyzer records exactly the final actions whose
estimated time is positive, regardless of type; achievements with a positive
estimated time are recorded too. -/
theorem recorded_actions_iff (final_actions : List Action) (a : Action) :
    a ∈ recorded_actions final_actions ↔
      a ∈ final_actions ∧ a.estimated_time_minutes > 0 := by
  simp [recorded_actions, List.mem_filter]

/-- C9. The cache key depends only on the user id and the normalized text,
never on the date: after a first analyze_text call on a cold key with date d1,
a second call with any date d2 returns the cached result unchanged, whose date
field is d1. -/
theorem cache_ignores_date (pipeline : Int → Str → List Action)
    (cache : CacheMap) (u : Int) (t : Str) (d1 d2 : Int)
    (hmiss : cache (generate_cache_key u (normalize_text t)) = none) :
    (analyze_text pipeline true
        ((analyze_text pipeline true cache u t d1).2) u t d2).1
      = (analyze_text pipeline true cache u t d1).1
    ∧ (analyze_text pipeline true
        ((analyze_text pipeline true cache u t d1).2) u t d2).1.date = d1 := by
  unfold analyze_text generate_cache_key
  unfold generate_cache_key at hmiss
  simp [hmiss]

/-- Witness for C9 at a concrete input: with an empty cache, the second call
with date 6 returns the result computed and cached with date 5. -/
theorem cache_ignores_date_witness :
    emptyCache (generate_cache_key 1 (normalize_text (strOf "зал"))) = none
    ∧ ((analyze_text (fun _ _ => []) true
          ((analyze_text (fun _ _ => []) true emptyCache 1 (strOf "зал") 5).2)
          1 (strOf "зал") 6).1
        = (analyze_text (fun _ _ => []) true emptyCache 1 (strOf "зал") 5).1
      ∧ (analyze_text (fun _ _ => []) true
          ((analyze_text (fun _ _ => []) true emptyCache 1 (strOf "зал") 5).2)
          1 (strOf "зал") 6).1.date = 5) :=
  ⟨rfl, cache_ignores_date (fun _ _ => []) emptyCache 1 (strOf "зал") 5 6 rfl⟩

theorem heuristic_extract_conf (seg : Str) (a : RawAction)
    (h : heuristic_extract_action seg = some a) :
    (a.confidence = 7/10 ∨ a.confidence = 8/10 ∨ a.confidence = 9/10 ∨
      a.confidence = 1)
    ∧ (a.estimated_time_minutes.isSome = true → a.confidence ≥ 9/10) := by
  unfold heuristic_extract_action at h
  rcases hdc : detect_category seg with ⟨o1, o2⟩
  rw [hdc] at h
  cases o1 with
  | none => simp at h
  | some cat =>
    simp only [Option.some.injEq] at h
    subst h
    rcases hti : extract_time seg with _ | t <;>
      cases hb : (detect_achievement seg).1 <;>
        constructor <;>
          simp [calculate_action_confidence, hti, hb, min_def] <;> norm_num

theorem sum_lower_bound (l : List ℚ) (h : ∀ x ∈ l, 7/10 ≤ x) :
    7/10 * l.length ≤ l.sum := by
  induction l with
  | nil => simp
  | cons x t ih =>
    simp only [List.sum_cons, List.length_cons]
    have hx := h x (by simp)
    have ht := ih (fun y hy => h y (by simp [hy]))
    push_cast
    linarith

/-- C10. Every raw action emitted by the heuristic parser has confidence in
the four-value set 0.7, 0.8, 0.9, 1.0 (base 0.5 plus 0.2 for the category
match every emitted action has, plus 0.2 for a duration and 0.1 for an
achievement keyword, capped at 1); a nonempty parse therefore has overall
confidence at least 0.7, and any emitted action with an extracted duration
has confidence at least 0.9. -/
theorem heuristic_confidence_values (text : Str) :
    (∀ a ∈ (heuristic_parse text).1,
      a.confidence = 7/10 ∨ a.confidence = 8/10 ∨ a.confidence = 9/10 ∨
        a.confidence = 1)
    ∧ ((heuristic_parse text).1 ≠ [] → (heuristic_parse text).2 ≥ 7/10)
    ∧ (∀ a ∈ (heuristic_parse text).1,
      a.estimated_time_minutes.isSome = true → a.confidence ≥ 9/10) := by
  have hmem : ∀ a ∈ (heuristic_parse text).1,
      (a.confidence = 7/10 ∨ a.confidence = 8/10 ∨ a.confidence = 9/10 ∨
        a.confidence = 1)
      ∧ (a.estimated_time_minutes.isSome = true → a.confidence ≥ 9/10) := by
    intro a ha
    have ha2 : a ∈ (segment_text text).filterMap heuristic_extract_action := ha
    rcases List.mem_filterMap.mp ha2 with ⟨seg, _, hseg⟩
    exact heuristic_extract_conf seg a hseg
  refine ⟨fun a ha => (hmem a ha).1, ?_, fun a ha => (hmem a ha).2⟩
  intro hne
  have h2 : (heuristic_parse text).2
      = heuristic_overall_confidence (heuristic_parse text).1 := rfl
  rw [h2]
  unfold heuristic_overall_confidence
  rw [if_neg hne]
  have hlen : 0 < (heuristic_parse text).1.length := List.length_pos.mpr hne
  have hpos : 0 < (((heuristic_parse text).1.length : Nat) : ℚ) := by
    exact_mod_cast hlen
  rw [ge_iff_le, le_div_iff₀ hpos]
  have hlow : ∀ x ∈ (heuristic_parse text).1.map (fun a => a.confidence),
      7/10 ≤ x := by
    intro x hx
    rcases List.mem_map.mp hx with ⟨a, ha, rfl⟩
    rcases (hmem a ha).1 with h | h | h | h <;> rw [h] <;> norm_num
  have hsum := sum_lower_bound _ hlow
  rw [List.length_map] at hsum
  exact hsum

unseal Rat.mul Rat.add Rat.sub Rat.inv in
/-- Witness for C10 at a concrete input: зал 30 минут parses to one sport
action with 30 minutes and confidence 0.9, and the overall confidence is at
least 0.7. -/
theorem heuristic_confidence_values_witness :
    heuristicDemoAction ∈ (heuristic_parse (strOf "зал 30 минут")).1
    ∧ (heuristicDemoAction.confidence = 7/10 ∨
       heuristicDemoAction.confidence = 8/10 ∨
       heuristicDemoAction.confidence = 9/10 ∨
       heuristicDemoAction.confidence = 1)
    ∧ (heuristic_parse (strOf "зал 30 минут")).2 ≥ 7/10
    ∧ heuristicDemoAction.confidence ≥ 9/10 :=
  ⟨by decide,
   (heuristic_confidence_values (strOf "зал 30 минут")).1 heuristicDemoAction
     (by decide),
   (heuristic_confidence_values (strOf "зал 30 минут")).2.1 (by decide),
   (heuristic_confidence_values (strOf "зал 30 минут")).2.2 heuristicDemoAction
     (by decide) (by decide)⟩

theorem toLowerCp_idem (c : Nat) : toLowerCp (toLowerCp c) = toLowerCp c := by
  unfold toLowerCp
  split_ifs <;> omega

theorem mem_ltrim {c : Nat} {l : Str} (h : c ∈ ltrim l) : c ∈ l :=
  (List.dropWhile_suffix _).sublist.subset h

theorem mem_rtrim {c : Nat} {l : Str} (h : c ∈ rtrim l) : c ∈ l := by
  unfold rtrim at h
  rw [List.mem_reverse] at h
  have h2 := (List.dropWhile_suffix (fun c => isSpaceCp c)).sublist.subset h
  rwa [List.mem_reverse] at h2

theorem mem_pyStrip {c : Nat} {l : Str} (h : c ∈ pyStrip l) : c ∈ l :=
  mem_ltrim (mem_rtrim h)

theorem mem_collapseWsAux :
    ∀ (b : Bool) (z : Str) (c : Nat), c ∈ collapseWsAux b z →
      c = 32 ∨ (c ∈ z ∧ isSpaceCp c = false) := by
  intro b z
  induction z generalizing b with
  | nil => intro c h; simp [collapseWsAux] at h
  | cons d r ih =>
    intro c h
    by_cases hs : isSpaceCp d = true
    · cases b with
      | true =>
        simp only [collapseWsAux, hs, if_true] at h
        rcases ih true c h with h1 | ⟨h1, h2⟩
        · exact Or.inl h1
        · exact Or.inr ⟨List.mem_cons_of_mem d h1, h2⟩
      | false =>
        simp only [collapseWsAux, hs, if_true] at h
        rcases List.mem_cons.mp h with rfl | h1
        · exact Or.inl rfl
        · rcases ih true c h1 with h2 | ⟨h2, h3⟩
          · exact Or.inl h2
          · exact Or.inr ⟨List.mem_cons_of_mem d h2, h3⟩
    · have hs2 : isSpaceCp d = false := by
        cases hval : isSpaceCp d
        · rfl
        · exact absurd hval hs
      simp only [collapseWsAux, hs2] at h
      rcases List.mem_cons.mp h with rfl | h1
      · exact Or.inr ⟨List.mem_cons_self _ _, hs2⟩
      · rcases ih false c h1 with h2 | ⟨h2, h3⟩
        · exact Or.inl h2
        · exact Or.inr ⟨List.mem_cons_of_mem d h2, h3⟩

theorem mem_collapseWs {c : Nat} {z : Str} (h : c ∈ collapseWs z) :
    c = 32 ∨ (c ∈ z ∧ isSpaceCp c = false) :=
  mem_collapseWsAux false z c h

theorem collapseWsAux_false_cons_space (c : Nat) (r : Str)
    (hs : isSpaceCp c = true) :
    collapseWsAux false (c :: r) = 32 :: collapseWsAux true r := by
  simp [collapseWsAux, hs]

theorem collapseWsAux_true_cons_space (c : Nat) (r : Str)
    (hs : isSpaceCp c = true) :
    collapseWsAux true (c :: r) = collapseWsAux true r := by
  simp [collapseWsAux, hs]

theorem collapseWsAux_cons_nonspace (b : Bool) (c : Nat) (r : Str)
    (hs : isSpaceCp c = false) :
    collapseWsAux b (c :: r) = c :: collapseWsAux false r := by
  simp [collapseWsAux, hs]

theorem collapseWsAux_chain :
    ∀ z : Str,
      List.Chain' NoSpaceRun (collapseWsAux false z)
      ∧ (List.Chain' NoSpaceRun (collapseWsAux true z)
        ∧ ∀ d ∈ (collapseWsAux true z).head?, isSpaceCp d = false) := by
  intro z
  induction z with
  | nil => refine ⟨by simp [collapseWsAux], by simp [collapseWsAux], ?_⟩
           simp [collapseWsAux]
  | cons c r ih =>
    obtain ⟨ihf, iht, ihh⟩ := ih
    by_cases hs : isSpaceCp c = true
    · refine ⟨?_, ?_, ?_⟩
      · rw [collapseWsAux_false_cons_space c r hs, List.chain'_cons']
        refine ⟨?_, iht⟩
        intro y hy
        intro hcontra
        rw [ihh y hy] at hcontra
        exact absurd hcontra.2 (by decide)
      · rw [collapseWsAux_true_cons_space c r hs]
        exact iht
      · rw [collapseWsAux_true_cons_space c r hs]
        exact ihh
    · have hs2 : isSpaceCp c = false := by
        cases hval : isSpaceCp c
        · rfl
        · exact absurd hval hs
      have hcons : List.Chain' NoSpaceRun (c :: collapseWsAux false r) := by
        rw [List.chain'_cons']
        refine ⟨?_, ihf⟩
        intro y _
        intro hcontra
        rw [hs2] at hcontra
        exact absurd hcontra.1 (by decide)
      refine ⟨?_, ?_, ?_⟩
      · rw [collapseWsAux_cons_nonspace false c r hs2]
        exact hcons
      · rw [collapseWsAux_cons_nonspace true c r hs2]
        exact hcons
      · rw [collapseWsAux_cons_nonspace true c r hs2]
        intro d hd
        rw [List.head?_cons, Option.mem_def, Option.some.injEq] at hd
        rw [← hd]
        exact hs2

theorem collapseWs_chain (z : Str) : List.Chain' NoSpaceRun (collapseWs z) :=
  (collapseWsAux_chain z).1

theorem collapseWsAux_true_eq (r : Str)
    (hr : ∀ d ∈ r.head?, isSpaceCp d = false) :
    collapseWsAux true r = collapseWsAux false r := by
  cases r with
  | nil => rfl
  | cons d r2 =>
    have hd : isSpaceCp d = false := hr d (by simp)
    simp [collapseWsAux, hd]

theorem collapseWs_fix :
    ∀ y : Str, (∀ c ∈ y, isSpaceCp c = true → c = 32) →
      List.Chain' NoSpaceRun y → collapseWsAux false y = y := by
  intro y
  induction y with
  | nil => intro _ _; rfl
  | cons c r ih =>
    intro h32 hch
    have hchr : List.Chain' NoSpaceRun r := hch.tail
    have h32r : ∀ d ∈ r, isSpaceCp d = true → d = 32 :=
      fun d hd => h32 d (List.mem_cons_of_mem c hd)
    by_cases hs : isSpaceCp c = true
    · have hc32 : c = 32 := h32 c (List.mem_cons_self _ _) hs
      have hhead : ∀ d ∈ r.head?, isSpaceCp d = false := by
        cases r with
        | nil => simp
        | cons d r2 =>
          intro d2 hd2
          rw [List.head?_cons, Option.mem_def, Option.some.injEq] at hd2
          rw [← hd2]
          have hpair := (List.chain'_cons.mp hch).1
          cases hval : isSpaceCp d
          · rfl
          · exact absurd ⟨hs, hval⟩ hpair
      calc collapseWsAux false (c :: r)
          = 32 :: collapseWsAux true r := collapseWsAux_false_cons_space c r hs
        _ = 32 :: collapseWsAux false r := by
            rw [collapseWsAux_true_eq r hhead]
        _ = 32 :: r := by rw [ih h32r hchr]
        _ = c :: r := by rw [hc32]
    · have hs2 : isSpaceCp c = false := by
        cases hval : isSpaceCp c
        · rfl
        · exact absurd hval hs
      rw [collapseWsAux_cons_nonspace false c r hs2, ih h32r hchr]

theorem ltrim_head (l : Str) : ∀ d ∈ (ltrim l).head?, isSpaceCp d = false := by
  induction l with
  | nil => simp [ltrim]
  | cons c r ih =>
    by_cases hs : isSpaceCp c = true
    · intro d hd
      apply ih d
      rw [ltrim, List.dropWhile_cons] at hd
      simpa [hs] using hd
    · have hs2 : isSpaceCp c = false := by
        cases hval : isSpaceCp c
        · rfl
        · exact absurd hval hs
      intro d hd
      rw [ltrim, List.dropWhile_cons] at hd
      simp only [hs2, if_false, Bool.false_eq_true, List.head?_cons] at hd
      rw [Option.mem_def, Option.some.injEq] at hd
      rw [← hd]
      exact hs2

theorem ltrim_fix (l : Str) (h : ∀ d ∈ l.head?, isSpaceCp d = false) :
    ltrim l = l := by
  cases l with
  | nil => rfl
  | cons c r =>
    have hc : isSpaceCp c = false := h c (by simp)
    simp [ltrim, List.dropWhile_cons, hc]

theorem rtrim_fix (l : Str) (h : ∀ d ∈ l.getLast?, isSpaceCp d = false) :
    rtrim l = l := by
  unfold rtrim
  have h2 : ∀ d ∈ l.reverse.head?, isSpaceCp d = false := by
    intro d hd
    rw [List.head?_reverse] at hd
    exact h d hd
  have h3 : l.reverse.dropWhile (fun c => isSpaceCp c) = l.reverse :=
    ltrim_fix l.reverse h2
  rw [h3, List.reverse_reverse]

theorem pyStrip_fix (l : Str) (hhead : ∀ d ∈ l.head?, isSpaceCp d = false)
    (hlast : ∀ d ∈ l.getLast?, isSpaceCp d = false) : pyStrip l = l := by
  rw [pyStrip, ltrim_fix l hhead, rtrim_fix l hlast]

theorem rtrim_pre (l : Str) : rtrim l <+: l := by
  have h1 : l.reverse.dropWhile (fun c => isSpaceCp c) <:+ l.reverse :=
    List.dropWhile_suffix _
  have h2 := List.reverse_prefix.mpr h1
  rwa [List.reverse_reverse] at h2

theorem rtrim_last (z : Str) :
    ∀ d ∈ (rtrim z).getLast?, isSpaceCp d = false := by
  intro d hd
  rw [← List.head?_reverse] at hd
  unfold rtrim at hd
  rw [List.reverse_reverse] at hd
  exact ltrim_head z.reverse d hd

theorem prefix_head {l1 l2 : Str} (h : l1 <+: l2) (hne : l1 ≠ []) :
    l1.head? = l2.head? := by
  rcases h with ⟨t, rfl⟩
  cases l1 with
  | nil => exact absurd rfl hne
  | cons c r => simp

theorem pyStrip_head (w : Str) :
    ∀ d ∈ (pyStrip w).head?, isSpaceCp d = false := by
  intro d hd
  by_cases hne : pyStrip w = []
  · rw [hne] at hd
    simp at hd
  · have hpre : pyStrip w <+: ltrim w := rtrim_pre (ltrim w)
    rw [prefix_head hpre hne] at hd
    exact ltrim_head w d hd

/-- Idempotence of normalize_text: a second normalization pass changes
nothing, because the first pass leaves only lowercase-fixed word characters
and single plain spaces with no leading or trailing space. -/
theorem normalize_text_idem (s : Str) :
    normalize_text (normalize_text s) = normalize_text s := by
  set z0 : Str :=
    (s.map toLowerCp).filter (fun c => isWordCp c || isSpaceCp c) with hz0
  have hy : normalize_text s = pyStrip (collapseWs z0) := rfl
  set y := normalize_text s with hydef
  have hmemy : ∀ c ∈ y, c = 32 ∨ (c ∈ z0 ∧ isSpaceCp c = false) := by
    intro c hc
    rw [hy] at hc
    exact mem_collapseWs (mem_pyStrip hc)
  have hlow : ∀ c ∈ y, toLowerCp c = c := by
    intro c hc
    rcases hmemy c hc with rfl | ⟨hmem, _⟩
    · rfl
    · rcases List.mem_filter.mp hmem with ⟨hmap, _⟩
      rcases List.mem_map.mp hmap with ⟨d, _, rfl⟩
      exact toLowerCp_idem d
  have hkeep : ∀ c ∈ y, (isWordCp c || isSpaceCp c) = true := by
    intro c hc
    rcases hmemy c hc with rfl | ⟨hmem, _⟩
    · decide
    · exact (List.mem_filter.mp hmem).2
  have h32 : ∀ c ∈ y, isSpaceCp c = true → c = 32 := by
    intro c hc hsp
    rcases hmemy c hc with rfl | ⟨_, hns⟩
    · rfl
    · rw [hsp] at hns
      exact absurd hns (by decide)
  have hch : List.Chain' NoSpaceRun y := by
    have h1 := collapseWs_chain z0
    have h2 : List.Chain' NoSpaceRun (ltrim (collapseWs z0)) :=
      h1.suffix (List.dropWhile_suffix _)
    have h3 : List.Chain' NoSpaceRun (rtrim (ltrim (collapseWs z0))) :=
      h2.prefix (rtrim_pre _)
    rw [hy]
    exact h3
  have hhead : ∀ d ∈ y.head?, isSpaceCp d = false := by
    rw [hy]
    exact pyStrip_head (collapseWs z0)
  have hlast : ∀ d ∈ y.getLast?, isSpaceCp d = false := by
    rw [hy]
    exact rtrim_last (ltrim (collapseWs z0))
  show normalize_text y = y
  unfold normalize_text
  have hmap : y.map toLowerCp = y := by
    have h1 : y.map toLowerCp = y.map id := List.map_congr_left hlow
    rw [h1, List.map_id]
  have hfilt : y.filter (fun c => isWordCp c || isSpaceCp c) = y :=
    List.filter_eq_self.mpr hkeep
  rw [hmap, hfilt]
  show pyStrip (collapseWsAux false y) = y
  rw [collapseWs_fix y h32 hch, pyStrip_fix y hhead hlast]

end NlpService
